import Mathlib

/-!
Verification of the iterative score-convergence and plateau-detection policy
of the amplifier-collection-metacognition repository.

The executable core lives in `examples/code/iterative_workflow.py`
(`IterativeRefinerClient`), `examples/code/basic_usage.py`
(`route_based_on_complexity`) and `examples/code/error_handling.py`
(`ErrorHandler.handle_iteration_timeout`).  Scores are embedded as
rationals; every score occurring in the repository is a short decimal
literal, so rational arithmetic reproduces the Python comparisons exactly.
-/

/-- One produced candidate solution at a given iteration
(the dict built by `_execute_iteration`). -/
structure Attempt where
  iteration : Nat
  score : ℚ
  feedback : String
  solution : String
deriving Repr, DecidableEq

/-- Labels for the three return sites of `IterativeRefinerClient.refine`
(lines 50-52, 55-57 and 61-64), using the vocabulary of the spec's
`TerminationDecision`. -/
inductive Decision where
  | SuccessThresholdMet
  | PlateauDetected
  | BudgetExhausted
deriving Repr, DecidableEq

/-- The dict returned by `_build_final_result`.  `bestIteration` is
`none` exactly when the Python `max` over an empty history would raise
`ValueError` (unreachable at the actual call sites). -/
structure FinalResult where
  iteration : Nat
  solution : String
  score : ℚ
  history : List Attempt
  bestIteration : Option Nat
deriving Repr, DecidableEq

/-- Python's `max(iterable, key=score)` keeps the current maximum and
replaces it only on a strictly greater key, so ties go to the earliest
element.  `maxFrom b l` folds that rule over `l` starting from `b`. -/
def maxFrom (b : Attempt) : List Attempt → Attempt
  | [] => b
  | a :: rest => maxFrom (if b.score < a.score then a else b) rest

/-- `max(self.history, key=lambda x: x['score'])`; `none` models the
`ValueError` on an empty list. -/
def maxByScore : List Attempt → Option Attempt
  | [] => none
  | a :: rest => some (maxFrom a rest)

/-- `IterativeRefinerClient._is_plateau` (lines 92-99): false while fewer
than 3 attempts, otherwise true iff the set of the last 3 scores has one
element, i.e. all three are equal. -/
def is_plateau (history : List Attempt) : Bool :=
  if history.length < 3 then false
  else
    match (history.drop (history.length - 3)).map (fun h => h.score) with
    | [] => false
    | s :: rest => rest.all (fun b => b == s)

/-- `IterativeRefinerClient._build_final_result` (lines 101-109). -/
def build_final_result (history : List Attempt) (final_iteration : Nat)
    (result : Attempt) : FinalResult :=
  { iteration := final_iteration
    solution := result.solution
    score := result.score
    history := history
    bestIteration := (maxByScore history).map (fun b => b.iteration) }

/-- The body of the `for` loop of `refine` (lines 39-59), run over the
remaining iteration numbers: execute, append, test success then plateau,
otherwise continue.  Returns the accumulated history and, if a return
statement fired, the decision with the triggering attempt and iteration. -/
def runIters (threshold : ℚ) (e : Nat → Attempt) :
    List Nat → List Attempt → List Attempt × Option (Decision × Attempt × Nat)
  | [], history => (history, none)
  | i :: rest, history =>
    if threshold ≤ (e i).score then
      (history ++ [e i], some (Decision.SuccessThresholdMet, e i, i))
    else if is_plateau (history ++ [e i]) then
      (history ++ [e i], some (Decision.PlateauDetected, e i, i))
    else runIters threshold e rest (history ++ [e i])

/-- `IterativeRefinerClient.refine` (lines 24-64) for a client whose
`_execute_iteration` is `e` (`IterativeRefinerClient` and the
`PlateauSimulator` subclass only differ in `e`) and whose history starts
empty, as `__init__` leaves it.  `none` models the `ValueError` raised by
`max` on an empty history when `max_iterations = 0`. -/
def refine (max_iterations : Nat) (success_threshold : ℚ)
    (e : Nat → Attempt) : Option (Decision × FinalResult) :=
  match runIters success_threshold e (List.range' 1 max_iterations) [] with
  | (history, some (d, result, i)) => some (d, build_final_result history i result)
  | (history, none) =>
    (maxByScore history).map
      (fun best => (Decision.BudgetExhausted, build_final_result history max_iterations best))

/-- `IterativeRefinerClient._execute_iteration` (lines 66-90): the
simulated progressive-improvement scores, clamped at the last entry. -/
def execute_iteration (iteration : Nat) : Attempt :=
  let scores : List ℚ := [mkRat 60 100, mkRat 75 100, mkRat 88 100, mkRat 92 100, mkRat 94 100]
  let feedbacks : List String :=
    [("Missing error handling and edge cases"),
     ("Good progress, but complex nested logic"),
     ("Almost there, minor performance issues"),
     ("Excellent! Minor documentation gaps"),
     ("Perfect implementation")]
  let idx := min (iteration - 1) (scores.length - 1)
  { iteration := iteration
    score := scores.getD idx 0
    feedback := feedbacks.getD idx ("")
    solution := ("Solution attempt ") ++ toString iteration ++ ("...") }

/-- `PlateauSimulator._execute_iteration` (lines 134-152): plateau at
score 0.82 after the first iteration. -/
def plateau_execute_iteration (iteration : Nat) : Attempt :=
  let scores : List ℚ := [mkRat 70 100, mkRat 82 100, mkRat 82 100, mkRat 82 100, mkRat 82 100]
  let feedbacks : List String :=
    [("Initial implementation"),
     ("Improved error handling"),
     ("No significant improvement"),
     ("Still no improvement"),
     ("Plateau detected")]
  let idx := min (iteration - 1) (scores.length - 1)
  { iteration := iteration
    score := scores.getD idx 0
    feedback := feedbacks.getD idx ("")
    solution := ("Solution attempt ") ++ toString iteration ++ ("...") }

/-! ## `basic_usage.py`: routing on a complexity assessment -/

/-- An assessment mapping that contains a `confidence` and a
`recommendation` key, the precondition of claim C9. -/
structure Assessment where
  confidence : ℚ
  recommendation : String
deriving Repr, DecidableEq

/-- The literal `strategies` dict of `route_based_on_complexity`
(lines 77-83). -/
def strategies : List (String × String) :=
  [(("solve-directly"), ("execute_immediately")),
   (("single-pass-with-review"), ("implement_and_review")),
   (("iterative-refinement"), ("use_iterative_refiner")),
   (("ensemble"), ("use_ensemble_coordinator")),
   (("decompose"), ("break_into_subtasks"))]

/-- `route_based_on_complexity` (lines 58-85): low confidence short-circuits
to clarification, otherwise `strategies.get(recommendation, "unknown")`. -/
def route_based_on_complexity (assessment : Assessment) : String :=
  if assessment.confidence < mkRat 5 10 then ("clarify-with-user")
  else ((strategies.lookup assessment.recommendation).getD ("unknown"))

/-! ## `error_handling.py`: iteration-timeout recovery -/

/-- A response mapping as read by `handle_iteration_timeout`: each key the
function touches, `none` when the key is absent. -/
structure TimeoutResponse where
  status : Option String
  iteration : Option Nat
  self_score : Option ℚ
deriving Repr, DecidableEq

/-- `ErrorHandler.handle_iteration_timeout` (lines 126-168), projected to
the `action` field of the returned dict.  The budget branch reads
`response['iteration']` unconditionally, so a missing key there raises
`KeyError`, modelled as `none`. -/
def handle_iteration_timeout (response : TimeoutResponse) : Option String :=
  if response.status = some ("budget_exhausted") then
    response.iteration.map (fun _ => ("return_best_attempt"))
  else if response.status = some ("max_iterations_reached") then
    if mkRat 7 10 ≤ response.self_score.getD 0 then some ("accept_good_enough")
    else some ("suggest_decomposition")
  else if response.status = some ("plateau_detected") then
    some ("try_different_approach")
  else some ("proceed")

/-! ## Components present only in the spec

The spec (sections 4.1, 4.2, 4.3, 7) specifies a parametrized
`ScoreHistory` / `TerminationPolicy` / `RefinementLoop` that no file under
`src/` implements; the definitions below embed those components from the
spec's words, as the claims about them require. -/

/-- The error kinds of spec section 7. -/
inductive RefinerError where
  | InvariantViolation
  | ConfigurationError
  | CollaboratorFailure (iteration : Nat)
deriving Repr, DecidableEq

/-- Modelled from the spec: the configuration surface of section 6
restricted to the fields the claims use (`scale` is omitted; the spec says
scores outside it only produce a warning). -/
structure RefineConfig where
  success_threshold : ℚ
  max_iterations : Nat
  plateau_window : Nat
  plateau_epsilon : ℚ
deriving Repr, DecidableEq

/-- Modelled from the spec: `ScoreHistory.append` of section 4.1, missing
from `src/`.  It adds to the end, and fails with `InvariantViolation`
leaving the history unchanged when `attempt.iteration` is not exactly
`previous_length + 1`. -/
def appendAttempt (history : List Attempt) (attempt : Attempt) :
    List Attempt × Option RefinerError :=
  if attempt.iteration = history.length + 1 then (history ++ [attempt], none)
  else (history, some RefinerError.InvariantViolation)

/-- Python's `max` over a nonempty list of rationals. -/
def listMax : List ℚ → Option ℚ
  | [] => none
  | a :: rest => some (rest.foldl max a)

/-- Python's `min` over a nonempty list of rationals. -/
def listMin : List ℚ → Option ℚ
  | [] => none
  | a :: rest => some (rest.foldl min a)

/-- The last `n` entries of a score list (all of it when shorter). -/
def lastWindow (n : Nat) (scores : List ℚ) : List ℚ :=
  scores.drop (scores.length - n)

/-- Modelled from the spec: the plateau test of section 4.2 step 3,
missing from `src/` in its parametrized form — take the last
`plateau_window` scores and compare their range against
`plateau_epsilon`. -/
def plateauSpec (window : Nat) (epsilon : ℚ) (scores : List ℚ) : Bool :=
  if scores.length < window then false
  else
    match listMax (lastWindow window scores), listMin (lastWindow window scores) with
    | some mx, some mn => decide (mx - mn ≤ epsilon)
    | _, _ => false

/-- The four-valued decision of the spec's `TerminationPolicy`. -/
inductive PolicyDecision where
  | Continue
  | SuccessThresholdMet
  | PlateauDetected
  | BudgetExhausted
deriving Repr, DecidableEq

/-- Modelled from the spec: `TerminationPolicy` of section 4.2, missing
from `src/` — success, budget exhaustion and plateau tested in that fixed
priority order over the history accumulated so far. -/
def specPolicy (cfg : RefineConfig) (history : List Attempt) : PolicyDecision :=
  match history.getLast? with
  | none => PolicyDecision.Continue
  | some latest =>
    if cfg.success_threshold ≤ latest.score then PolicyDecision.SuccessThresholdMet
    else if cfg.max_iterations ≤ history.length then PolicyDecision.BudgetExhausted
    else if plateauSpec cfg.plateau_window cfg.plateau_epsilon
        (history.map (fun h => h.score)) then PolicyDecision.PlateauDetected
    else PolicyDecision.Continue

/-- Outcome of the spec's `RefinementLoop.run`. -/
inductive SpecOutcome where
  | done (d : PolicyDecision) (history : List Attempt)
  | collabFailure (iteration : Nat) (history : List Attempt)
  | configError
deriving Repr, DecidableEq

/-- Modelled from the spec: the iteration body of `RefinementLoop.run`
(section 4.3), missing from `src/`.  `e i` bundles one producer call and
one scorer call for iteration `i`; a failure of either is an `Except.error`
and is propagated immediately, tagged with `i`, with the history
accumulated before the failure.  Returns the outcome and the number of
iterations that invoked the collaborators. -/
def specGo (cfg : RefineConfig) (e : Nat → Except String Attempt) :
    List Nat → List Attempt → Nat → SpecOutcome × Nat
  | [], history, calls => (SpecOutcome.done PolicyDecision.BudgetExhausted history, calls)
  | i :: rest, history, calls =>
    match e i with
    | Except.error _ => (SpecOutcome.collabFailure i history, calls + 1)
    | Except.ok attempt =>
      match specPolicy cfg (history ++ [attempt]) with
      | PolicyDecision.Continue => specGo cfg e rest (history ++ [attempt]) (calls + 1)
      | d => (SpecOutcome.done d (history ++ [attempt]), calls + 1)

/-- Modelled from the spec: `RefinementLoop.run` of sections 4.3 and 7,
missing from `src/` — a `ConfigurationError` (`plateau_window < 2` or
`max_iterations < 1`) fails fast before any iteration runs. -/
def specRun (cfg : RefineConfig) (e : Nat → Except String Attempt) :
    SpecOutcome × Nat :=
  if cfg.plateau_window < 2 ∨ cfg.max_iterations < 1 then (SpecOutcome.configError, 0)
  else specGo cfg e (List.range' 1 cfg.max_iterations) [] 0

/-! ## Lemmas about Python `max(..., key=score)` -/

/-- Folding Python's strict-replacement rule from `b` over `l` yields an
element that is `b` itself or the first list element strictly above `b`
and everything before it. -/
lemma maxFrom_spec : ∀ (l : List Attempt) (b : Attempt),
    (maxFrom b l = b ∨ ∃ pre m post, l = pre ++ m :: post ∧ maxFrom b l = m ∧
      b.score < m.score ∧ ∀ x ∈ pre, x.score < m.score) ∧
    b.score ≤ (maxFrom b l).score ∧ ∀ x ∈ l, x.score ≤ (maxFrom b l).score
  | [], b => by
      refine ⟨Or.inl rfl, le_refl _, ?_⟩
      intro x hx
      simp at hx
  | a :: rest, b => by
      simp only [maxFrom]
      by_cases hab : b.score < a.score
      · rw [if_pos hab]
        obtain ⟨hdec, hle, hall⟩ := maxFrom_spec rest a
        refine ⟨?_, le_trans (le_of_lt hab) hle, ?_⟩
        · rcases hdec with h | ⟨pre, m, post, h1, h2, h3, h4⟩
          · exact Or.inr ⟨[], a, rest, by simp, h, hab, by simp⟩
          · refine Or.inr ⟨a :: pre, m, post, by rw [h1, List.cons_append], h2,
              lt_trans hab h3, ?_⟩
            intro x hx
            rcases List.mem_cons.mp hx with rfl | hx
            · exact h3
            · exact h4 x hx
        · intro x hx
          rcases List.mem_cons.mp hx with rfl | hx
          · exact hle
          · exact hall x hx
      · rw [if_neg hab]
        obtain ⟨hdec, hle, hall⟩ := maxFrom_spec rest b
        have hba : a.score ≤ b.score := not_lt.mp hab
        refine ⟨?_, hle, ?_⟩
        · rcases hdec with h | ⟨pre, m, post, h1, h2, h3, h4⟩
          · exact Or.inl h
          · refine Or.inr ⟨a :: pre, m, post, by rw [h1, List.cons_append], h2, h3, ?_⟩
            intro x hx
            rcases List.mem_cons.mp hx with rfl | hx
            · exact lt_of_le_of_lt hba h3
            · exact h4 x hx
        · intro x hx
          rcases List.mem_cons.mp hx with rfl | hx
          · exact le_trans hba hle
          · exact hall x hx

/-- `max(history, key=score)` returns an element whose score dominates the
whole list, and everything strictly before it in the list scores strictly
lower (Python `max` keeps the earliest maximum). -/
lemma maxByScore_spec (h : List Attempt) (m : Attempt)
    (hm : maxByScore h = some m) :
    ∃ pre post, h = pre ++ m :: post ∧ (∀ x ∈ pre, x.score < m.score) ∧
      ∀ x ∈ h, x.score ≤ m.score := by
  match h with
  | [] => simp [maxByScore] at hm
  | a :: rest =>
    simp only [maxByScore, Option.some.injEq] at hm
    obtain ⟨hdec, hle, hall⟩ := maxFrom_spec rest a
    rcases hdec with h1 | ⟨pre, mm, post, h1, h2, h3, h4⟩
    · refine ⟨[], rest, ?_, by simp, ?_⟩
      · rw [← hm, h1, List.nil_append]
      · intro x hx
        rcases List.mem_cons.mp hx with rfl | hx
        · rw [← hm, h1]
        · rw [← hm]
          exact hall x hx
    · refine ⟨a :: pre, post, ?_, ?_, ?_⟩
      · rw [← hm, h2, h1, List.cons_append]
      · intro x hx
        rw [← hm, h2]
        rcases List.mem_cons.mp hx with rfl | hx
        · exact h3
        · exact h4 x hx
      · intro x hx
        rw [← hm]
        rcases List.mem_cons.mp hx with rfl | hx
        · exact hle
        · exact hall x hx

/-- A nonempty history always has a Python maximum. -/
lemma maxByScore_ne_none (h : List Attempt) (hne : h ≠ []) :
    ∃ m, maxByScore h = some m := by
  cases h with
  | nil => exact absurd rfl hne
  | cons a rest => exact ⟨maxFrom a rest, rfl⟩

/-- When the last element strictly dominates everything before it, Python
`max` picks exactly that last element. -/
lemma maxByScore_strict_last (pre : List Attempt) (r : Attempt)
    (hpre : ∀ x ∈ pre, x.score < r.score) :
    maxByScore (pre ++ [r]) = some r := by
  obtain ⟨m, hm⟩ := maxByScore_ne_none (pre ++ [r]) (by simp)
  obtain ⟨pre2, post2, hdec, _, hall⟩ := maxByScore_spec _ _ hm
  have hmmem : m ∈ pre ++ [r] := by
    rw [hdec]
    exact List.mem_append.mpr (Or.inr (List.mem_cons_self m post2))
  have hrm : r.score ≤ m.score := hall r (by simp)
  rcases List.mem_append.mp hmmem with h1 | h1
  · exact absurd (lt_of_lt_of_le (hpre m h1) hrm) (lt_irrefl _)
  · rw [List.mem_singleton.mp h1] at hm
    exact hm

/-! ## Lemmas about Python `max`/`min` over rational lists -/

/-- `foldl max` dominates its seed and every list element, and equals one
of them. -/
lemma foldl_max_spec : ∀ (l : List ℚ) (a : ℚ),
    (l.foldl max a = a ∨ l.foldl max a ∈ l) ∧ a ≤ l.foldl max a ∧
      ∀ x ∈ l, x ≤ l.foldl max a
  | [], a => ⟨Or.inl rfl, le_refl _, by simp⟩
  | b :: rest, a => by
      simp only [List.foldl_cons]
      obtain ⟨h1, h2, h3⟩ := foldl_max_spec rest (max a b)
      refine ⟨?_, le_trans (le_max_left a b) h2, ?_⟩
      · rcases h1 with h | h
        · rcases max_choice a b with hc | hc
          · exact Or.inl (by rw [h, hc])
          · refine Or.inr ?_
            rw [h, hc]
            exact List.mem_cons_self b rest
        · exact Or.inr (List.mem_cons_of_mem b h)
      · intro x hx
        rcases List.mem_cons.mp hx with rfl | hx
        · exact le_trans (le_max_right a x) h2
        · exact h3 x hx

/-- `foldl min` is dominated by its seed and every list element, and
equals one of them. -/
lemma foldl_min_spec : ∀ (l : List ℚ) (a : ℚ),
    (l.foldl min a = a ∨ l.foldl min a ∈ l) ∧ l.foldl min a ≤ a ∧
      ∀ x ∈ l, l.foldl min a ≤ x
  | [], a => ⟨Or.inl rfl, le_refl _, by simp⟩
  | b :: rest, a => by
      simp only [List.foldl_cons]
      obtain ⟨h1, h2, h3⟩ := foldl_min_spec rest (min a b)
      refine ⟨?_, le_trans h2 (min_le_left a b), ?_⟩
      · rcases h1 with h | h
        · rcases min_choice a b with hc | hc
          · exact Or.inl (by rw [h, hc])
          · refine Or.inr ?_
            rw [h, hc]
            exact List.mem_cons_self b rest
        · exact Or.inr (List.mem_cons_of_mem b h)
      · intro x hx
        rcases List.mem_cons.mp hx with rfl | hx
        · exact le_trans h2 (min_le_right a x)
        · exact h3 x hx

/-- Python `max` of a nonempty rational list is a member and an upper
bound. -/
lemma listMax_spec (l : List ℚ) (m : ℚ) (hm : listMax l = some m) :
    m ∈ l ∧ ∀ x ∈ l, x ≤ m := by
  match l with
  | [] => simp [listMax] at hm
  | a :: rest =>
    simp only [listMax, Option.some.injEq] at hm
    obtain ⟨h1, h2, h3⟩ := foldl_max_spec rest a
    subst hm
    refine ⟨?_, ?_⟩
    · rcases h1 with h | h
      · rw [h]
        exact List.mem_cons_self a rest
      · exact List.mem_cons_of_mem a h
    · intro x hx
      rcases List.mem_cons.mp hx with rfl | hx
      · exact h2
      · exact h3 x hx

/-- Python `min` of a nonempty rational list is a member and a lower
bound. -/
lemma listMin_spec (l : List ℚ) (m : ℚ) (hm : listMin l = some m) :
    m ∈ l ∧ ∀ x ∈ l, m ≤ x := by
  match l with
  | [] => simp [listMin] at hm
  | a :: rest =>
    simp only [listMin, Option.some.injEq] at hm
    obtain ⟨h1, h2, h3⟩ := foldl_min_spec rest a
    subst hm
    refine ⟨?_, ?_⟩
    · rcases h1 with h | h
      · rw [h]
        exact List.mem_cons_self a rest
      · exact List.mem_cons_of_mem a h
    · intro x hx
      rcases List.mem_cons.mp hx with rfl | hx
      · exact h2
      · exact h3 x hx

/-- A window has range zero exactly when all its elements coincide. -/
lemma range_le_zero_iff (w : List ℚ) (mx mn : ℚ) (hmx : listMax w = some mx)
    (hmn : listMin w = some mn) :
    mx - mn ≤ 0 ↔ ∀ a ∈ w, ∀ b ∈ w, a = b := by
  obtain ⟨hmxmem, hmxub⟩ := listMax_spec w mx hmx
  obtain ⟨hmnmem, hmnlb⟩ := listMin_spec w mn hmn
  constructor
  · intro hle a ha b hb
    have h1 : mx ≤ mn := sub_nonpos.mp hle
    have ha2 : a = mn := le_antisymm (le_trans (hmxub a ha) h1) (hmnlb a ha)
    have hb2 : b = mn := le_antisymm (le_trans (hmxub b hb) h1) (hmnlb b hb)
    rw [ha2, hb2]
  · intro hall
    rw [hall mx hmxmem mn hmnmem]
    simp

/-! ## Lemmas about the `refine` loop body -/

/-- When the loop body fires a return statement, the triggering attempt is
the last appended one; success fires exactly on a score at or above the
threshold, plateau only below it with `_is_plateau` true on the final
history, and the loop body itself never reports budget exhaustion. -/
lemma runIters_some_spec (t : ℚ) (e : Nat → Attempt) :
    ∀ (iters : List Nat) (history fh : List Attempt) (d : Decision)
      (r : Attempt) (i : Nat),
      runIters t e iters history = (fh, some (d, r, i)) →
      fh.getLast? = some r ∧ r = e i ∧
      (d = Decision.SuccessThresholdMet ↔ t ≤ r.score) ∧
      (d = Decision.PlateauDetected → is_plateau fh = true ∧ r.score < t) ∧
      d ≠ Decision.BudgetExhausted
  | [], history, fh, d, r, i => by
      intro h
      simp [runIters] at h
  | i0 :: rest, history, fh, d, r, i => by
      intro h
      simp only [runIters] at h
      by_cases hc1 : t ≤ (e i0).score
      · rw [if_pos hc1] at h
        injection h with h1 h2
        injection h2 with h2
        injection h2 with h3 h4
        injection h4 with h4 h5
        subst h1
        subst h3
        subst h4
        subst h5
        refine ⟨List.getLast?_concat history, rfl, ?_, ?_, by decide⟩
        · exact ⟨fun _ => hc1, fun _ => rfl⟩
        · intro hP
          exact absurd hP (by decide)
      · rw [if_neg hc1] at h
        by_cases hc2 : is_plateau (history ++ [e i0]) = true
        · rw [if_pos hc2] at h
          injection h with h1 h2
          injection h2 with h2
          injection h2 with h3 h4
          injection h4 with h4 h5
          subst h1
          subst h3
          subst h4
          subst h5
          refine ⟨List.getLast?_concat history, rfl, ?_, fun _ => ⟨hc2, not_le.mp hc1⟩,
            by decide⟩
          exact iff_of_false (by decide) hc1
        · rw [if_neg hc2] at h
          exact runIters_some_spec t e rest (history ++ [e i0]) fh d r i h

/-- When the loop runs out of iterations, either nothing was appended or
the last appended attempt scored below the threshold without tripping the
plateau test. -/
lemma runIters_none_spec (t : ℚ) (e : Nat → Attempt) :
    ∀ (iters : List Nat) (history fh : List Attempt),
      runIters t e iters history = (fh, none) →
      fh = history ∨
        ∃ r, fh.getLast? = some r ∧ r.score < t ∧ is_plateau fh = false
  | [], history, fh => by
      intro h
      simp only [runIters] at h
      injection h with h1 _
      exact Or.inl h1.symm
  | i0 :: rest, history, fh => by
      intro h
      simp only [runIters] at h
      by_cases hc1 : t ≤ (e i0).score
      · rw [if_pos hc1] at h
        injection h with _ h2
        simp at h2
      · rw [if_neg hc1] at h
        by_cases hc2 : is_plateau (history ++ [e i0]) = true
        · rw [if_pos hc2] at h
          injection h with _ h2
          simp at h2
        · rw [if_neg hc2] at h
          rcases runIters_none_spec t e rest (history ++ [e i0]) fh h with h1 | h1
          · subst h1
            exact Or.inr ⟨e i0, List.getLast?_concat history, not_le.mp hc1,
              Bool.not_eq_true _ ▸ hc2⟩
          · exact Or.inr h1

/-- The final history extends the initial one by the attempts of a prefix
of the remaining iteration numbers, the whole of it when no return
statement fired. -/
lemma runIters_prefix (t : ℚ) (e : Nat → Attempt) :
    ∀ (iters : List Nat) (history : List Attempt),
      ∃ l₁ l₂, iters = l₁ ++ l₂ ∧
        (runIters t e iters history).1 = history ++ l₁.map e ∧
        ((runIters t e iters history).2 = none → l₂ = [])
  | [], history => ⟨[], [], rfl, by simp [runIters], fun _ => rfl⟩
  | i0 :: rest, history => by
      simp only [runIters]
      by_cases hc1 : t ≤ (e i0).score
      · rw [if_pos hc1]
        exact ⟨[i0], rest, rfl, by simp, by intro hn; simp at hn⟩
      · rw [if_neg hc1]
        by_cases hc2 : is_plateau (history ++ [e i0]) = true
        · rw [if_pos hc2]
          exact ⟨[i0], rest, rfl, by simp, by intro hn; simp at hn⟩
        · rw [if_neg hc2]
          obtain ⟨l₁, l₂, h1, h2, h3⟩ := runIters_prefix t e rest (history ++ [e i0])
          refine ⟨i0 :: l₁, l₂, by rw [h1, List.cons_append], ?_, h3⟩
          rw [h2, List.map_cons, List.append_assoc, List.singleton_append]

/-- Every attempt strictly before the triggering one scored below the
threshold (it did not fire the success return). -/
lemma runIters_some_prevBelow (t : ℚ) (e : Nat → Attempt) :
    ∀ (iters : List Nat) (history fh : List Attempt) (d : Decision)
      (r : Attempt) (i : Nat),
      (∀ a ∈ history, a.score < t) →
      runIters t e iters history = (fh, some (d, r, i)) →
      ∃ pre, fh = pre ++ [r] ∧ ∀ a ∈ pre, a.score < t
  | [], history, fh, d, r, i => by
      intro _ h
      simp [runIters] at h
  | i0 :: rest, history, fh, d, r, i => by
      intro hbelow h
      simp only [runIters] at h
      by_cases hc1 : t ≤ (e i0).score
      · rw [if_pos hc1] at h
        injection h with h1 h2
        injection h2 with h2
        injection h2 with _ h4
        injection h4 with h4 _
        subst h1
        subst h4
        exact ⟨history, rfl, hbelow⟩
      · rw [if_neg hc1] at h
        by_cases hc2 : is_plateau (history ++ [e i0]) = true
        · rw [if_pos hc2] at h
          injection h with h1 h2
          injection h2 with h2
          injection h2 with _ h4
          injection h4 with h4 _
          subst h1
          subst h4
          exact ⟨history, rfl, hbelow⟩
        · rw [if_neg hc2] at h
          refine runIters_some_prevBelow t e rest (history ++ [e i0]) fh d r i ?_ h
          intro a ha
          rcases List.mem_append.mp ha with ha | ha
          · exact hbelow a ha
          · rw [List.mem_singleton.mp ha]
            exact not_le.mp hc1

/-- When each simulated execution stamps its own iteration number, the
accumulated history carries strictly increasing iteration numbers. -/
lemma runIters_pairwise (t : ℚ) (e : Nat → Attempt)
    (he : ∀ i, (e i).iteration = i) :
    ∀ (iters : List Nat) (history : List Attempt),
      iters.Pairwise (· < ·) →
      history.Pairwise (fun a c => a.iteration < c.iteration) →
      (∀ a ∈ history, ∀ j ∈ iters, a.iteration < j) →
      (runIters t e iters history).1.Pairwise (fun a c => a.iteration < c.iteration)
  | [], history => by
      intro _ hh _
      simpa [runIters] using hh
  | i0 :: rest, history => by
      intro hit hh hbound
      have hit2 := List.pairwise_cons.mp hit
      have hh2 : (history ++ [e i0]).Pairwise (fun a c => a.iteration < c.iteration) := by
        refine List.pairwise_append.mpr ⟨hh, List.pairwise_singleton _ _, ?_⟩
        intro a ha b hb
        rw [List.mem_singleton.mp hb, he i0]
        exact hbound a ha i0 (List.mem_cons_self i0 rest)
      simp only [runIters]
      by_cases hc1 : t ≤ (e i0).score
      · rw [if_pos hc1]
        exact hh2
      · rw [if_neg hc1]
        by_cases hc2 : is_plateau (history ++ [e i0]) = true
        · rw [if_pos hc2]
          exact hh2
        · rw [if_neg hc2]
          refine runIters_pairwise t e he rest (history ++ [e i0]) hit2.2 hh2 ?_
          intro a ha j hj
          rcases List.mem_append.mp ha with ha | ha
          · exact hbound a ha j (List.mem_cons_of_mem i0 hj)
          · rw [List.mem_singleton.mp ha, he i0]
            exact hit2.1 j hj

/-- The iteration numbers produced by `range(1, max_iterations + 1)` are
strictly increasing. -/
lemma pairwise_lt_range1 : ∀ (n s : Nat), (List.range' s n).Pairwise (· < ·)
  | 0, s => by simp
  | n + 1, s => by
      rw [List.range'_succ]
      refine List.pairwise_cons.mpr ⟨?_, pairwise_lt_range1 n (s + 1)⟩
      intro m hm
      exact Nat.lt_of_succ_le (List.mem_range'_1.mp hm).1

/-- Projection of the final-result dict: the history field. -/
lemma build_final_result_history (h : List Attempt) (i : Nat) (r : Attempt) :
    (build_final_result h i r).history = h := rfl

/-- Projection of the final-result dict: the score field is the passed
result's score. -/
lemma build_final_result_score (h : List Attempt) (i : Nat) (r : Attempt) :
    (build_final_result h i r).score = r.score := rfl

/-- Projection of the final-result dict: `best_iteration` comes from the
Python maximum of the history. -/
lemma build_final_result_bestIteration (h : List Attempt) (i : Nat) (r : Attempt) :
    (build_final_result h i r).bestIteration
      = (maxByScore h).map (fun b => b.iteration) := rfl

/-- `refine` on a loop that fired a return statement. -/
lemma refine_eq_of_some (n : Nat) (t : ℚ) (e : Nat → Attempt)
    (fh : List Attempt) (d : Decision) (r : Attempt) (i : Nat)
    (hr : runIters t e (List.range' 1 n) [] = (fh, some (d, r, i))) :
    refine n t e = some (d, build_final_result fh i r) := by
  unfold refine
  rw [hr]

/-- `refine` on a loop that exhausted its iterations. -/
lemma refine_eq_of_none (n : Nat) (t : ℚ) (e : Nat → Attempt)
    (fh : List Attempt)
    (hr : runIters t e (List.range' 1 n) [] = (fh, none)) :
    refine n t e = (maxByScore fh).map
      (fun best => (Decision.BudgetExhausted, build_final_result fh n best)) := by
  unfold refine
  rw [hr]

/-- A successful `refine` call went through one of its three return
statements: success or plateau from inside the loop, or budget exhaustion
after it with the Python maximum of the history. -/
lemma refine_cases (n : Nat) (t : ℚ) (e : Nat → Attempt) (d : Decision)
    (fr : FinalResult) (hrun : refine n t e = some (d, fr)) :
    (∃ fh r i, runIters t e (List.range' 1 n) [] = (fh, some (d, r, i)) ∧
       fr = build_final_result fh i r) ∨
    (∃ fh best, runIters t e (List.range' 1 n) [] = (fh, none) ∧
       maxByScore fh = some best ∧ d = Decision.BudgetExhausted ∧
       fr = build_final_result fh n best) := by
  obtain ⟨fh, out, hr⟩ : ∃ fh out, runIters t e (List.range' 1 n) [] = (fh, out) :=
    ⟨_, _, rfl⟩
  cases out with
  | none =>
    rw [refine_eq_of_none n t e fh hr] at hrun
    cases hb : maxByScore fh with
    | none =>
      rw [hb] at hrun
      simp at hrun
    | some best =>
      rw [hb] at hrun
      simp only [Option.map_some'] at hrun
      injection hrun with h1
      injection h1 with h2 h3
      exact Or.inr ⟨fh, best, hr, hb, h2.symm, h3.symm⟩
  | some p =>
    rcases p with ⟨d', r, i⟩
    rw [refine_eq_of_some n t e fh d' r i hr] at hrun
    injection hrun with h1
    injection h1 with h2 h3
    subst h2
    exact Or.inl ⟨fh, r, i, hr, h3.symm⟩

/-- Claim C1: whenever `refine` terminates and the latest appended
attempt's score reaches `success_threshold`, the decision is
`SuccessThresholdMet` and never `PlateauDetected` or `BudgetExhausted`,
because the success test runs first on each iteration. -/
theorem success_checked_first (n : Nat) (t : ℚ) (e : Nat → Attempt)
    (d : Decision) (fr : FinalResult) (a : Attempt)
    (hrun : refine n t e = some (d, fr))
    (hlast : fr.history.getLast? = some a) (hscore : t ≤ a.score) :
    d = Decision.SuccessThresholdMet ∧ d ≠ Decision.PlateauDetected ∧
      d ≠ Decision.BudgetExhausted := by
  rcases refine_cases n t e d fr hrun with
    ⟨fh, r, i, hr, hfr⟩ | ⟨fh, best, hr, hb, hd, hfr⟩
  · obtain ⟨hlast2, _, hsucc, _, _⟩ := runIters_some_spec t e _ _ _ _ _ _ hr
    have hfh : fr.history = fh := by rw [hfr, build_final_result_history]
    rw [hfh, hlast2] at hlast
    have har : r = a := Option.some.inj hlast
    have hdS : d = Decision.SuccessThresholdMet := hsucc.mpr (har ▸ hscore)
    subst hdS
    exact ⟨rfl, by decide, by decide⟩
  · rcases runIters_none_spec t e _ _ _ hr with h1 | ⟨r, hl, hlt, _⟩
    · subst h1
      simp [maxByScore] at hb
    · have hfh : fr.history = fh := by rw [hfr, build_final_result_history]
      rw [hfh, hl] at hlast
      have har : r = a := Option.some.inj hlast
      exact absurd hscore (not_le.mpr (har ▸ hlt))

/-- Witness for C1 at the repository's own simulation: with
`max_iterations = 4` and threshold `0.9`, the score `0.92` arrives exactly
on the final iteration, so success and budget exhaustion coincide and the
reported decision is success. -/
theorem success_checked_first_witness :
    (refine 4 (mkRat 9 10) execute_iteration).map Prod.fst
      = some Decision.SuccessThresholdMet := by
  have hv : refine 4 (mkRat 9 10) execute_iteration
      = some (Decision.SuccessThresholdMet,
          build_final_result ((List.range' 1 4).map execute_iteration) 4
            (execute_iteration 4)) := by rfl
  have _h := success_checked_first 4 (mkRat 9 10) execute_iteration _ _
    (execute_iteration 4) hv rfl (by decide)
  rw [hv]
  rfl

/-- On a history with strictly increasing iteration numbers, the Python
maximum is a member, dominates every score, and among equal scores has the
lowest iteration number. -/
lemma maxByScore_tiebreak (fh : List Attempt) (b : Attempt)
    (hpw : fh.Pairwise (fun a c => a.iteration < c.iteration))
    (hb : maxByScore fh = some b) :
    b ∈ fh ∧ (∀ a ∈ fh, a.score ≤ b.score) ∧
      ∀ a ∈ fh, a.score = b.score → b.iteration ≤ a.iteration := by
  obtain ⟨pre, post, hdec, hlt, hall⟩ := maxByScore_spec fh b hb
  have hmem : b ∈ fh := by
    rw [hdec]
    exact List.mem_append.mpr (Or.inr (List.mem_cons_self b post))
  refine ⟨hmem, hall, ?_⟩
  intro a ha heq
  rw [hdec] at ha hpw
  have hpost : ∀ y ∈ post, b.iteration < y.iteration :=
    (List.pairwise_cons.mp (List.pairwise_append.mp hpw).2.1).1
  rcases List.mem_append.mp ha with h1 | h1
  · exact absurd heq (ne_of_lt (hlt a h1))
  · rcases List.mem_cons.mp h1 with rfl | h1
    · exact le_refl _
    · exact le_of_lt (hpost a h1)

/-- The execution used to refute claim C2: a strong first attempt followed
by a weaker plateau, as a `PlateauSimulator`-style override could
produce. -/
def varying_plateau_execution (i : Nat) : Attempt :=
  { iteration := i
    score := if i = 1 then mkRat 9 10 else mkRat 8 10
    feedback := ("")
    solution := ("") }

/-- Counterexample to claim C2 as stated: on scores
`[0.9, 0.8, 0.8, 0.8]` with threshold `0.95`, the run terminates with
`PlateauDetected` and the result handed to the caller carries score `0.8`
(the final attempt's), although the history holds an attempt scoring
`0.9`; so the attempt returned at termination is not always the
maximum-score attempt. -/
theorem returned_attempt_not_always_best :
    (refine 5 (mkRat 95 100) varying_plateau_execution).map
        (fun p => (p.1, p.2.score,
          p.2.history.any (fun a => decide (p.2.score < a.score))))
      = some (Decision.PlateauDetected, mkRat 8 10, true) := by rfl

/-- Claim C2 (amended): at every termination the `best_iteration` field
designates the attempt with the maximum score across the full history,
ties broken by the lowest iteration number, and its score is never below
any other attempt's; for `SuccessThresholdMet` and `BudgetExhausted`
terminations the returned solution's score is that maximum, while a
`PlateauDetected` termination returns the final attempt, whose score can
be lower. -/
theorem best_attempt_designation (n : Nat) (t : ℚ) (e : Nat → Attempt)
    (he : ∀ i, (e i).iteration = i) (d : Decision) (fr : FinalResult)
    (hrun : refine n t e = some (d, fr)) :
    ∃ b, maxByScore fr.history = some b ∧ fr.bestIteration = some b.iteration ∧
      b ∈ fr.history ∧ (∀ a ∈ fr.history, a.score ≤ b.score) ∧
      (∀ a ∈ fr.history, a.score = b.score → b.iteration ≤ a.iteration) ∧
      ((d = Decision.SuccessThresholdMet ∨ d = Decision.BudgetExhausted) →
        fr.score = b.score) := by
  have hpw0 := runIters_pairwise t e he (List.range' 1 n) []
    (pairwise_lt_range1 n 1) List.Pairwise.nil (by intro a ha; simp at ha)
  rcases refine_cases n t e d fr hrun with
    ⟨fh, r, i, hr, hfr⟩ | ⟨fh, best, hr, hb, hd, hfr⟩
  · have hpw : fh.Pairwise (fun a c => a.iteration < c.iteration) := by
      rw [hr] at hpw0
      exact hpw0
    obtain ⟨hlast2, _, hsucc, _, hnb⟩ := runIters_some_spec t e _ _ _ _ _ _ hr
    have hne : fh ≠ [] := by
      intro hnil
      rw [hnil] at hlast2
      simp at hlast2
    obtain ⟨b, hb⟩ := maxByScore_ne_none fh hne
    obtain ⟨hmem, hub, htie⟩ := maxByScore_tiebreak fh b hpw hb
    have hfh : fr.history = fh := by rw [hfr, build_final_result_history]
    refine ⟨b, by rw [hfh]; exact hb, ?_, by rw [hfh]; exact hmem,
      by rw [hfh]; exact hub, by rw [hfh]; exact htie, ?_⟩
    · rw [hfr, build_final_result_bestIteration, hb]
      rfl
    · intro hds
      rcases hds with hdS | hdB
      · have ht : t ≤ r.score := hsucc.mp hdS
        obtain ⟨pre, hfhdec, hprelt⟩ := runIters_some_prevBelow t e _ _ _ _ _ _
          (by intro a ha; simp at ha) hr
        have hbr : maxByScore fh = some r := by
          rw [hfhdec]
          exact maxByScore_strict_last pre r
            (fun x hx => lt_of_lt_of_le (hprelt x hx) ht)
        have hbeq : b = r := Option.some.inj (hb ▸ hbr)
        rw [hfr, build_final_result_score, hbeq]
      · exact absurd hdB hnb
  · have hpw : fh.Pairwise (fun a c => a.iteration < c.iteration) := by
      rw [hr] at hpw0
      exact hpw0
    obtain ⟨hmem, hub, htie⟩ := maxByScore_tiebreak fh best hpw hb
    have hfh : fr.history = fh := by rw [hfr, build_final_result_history]
    refine ⟨best, by rw [hfh]; exact hb, ?_, by rw [hfh]; exact hmem,
      by rw [hfh]; exact hub, by rw [hfh]; exact htie, ?_⟩
    · rw [hfr, build_final_result_bestIteration, hb]
      rfl
    · intro _
      rw [hfr, build_final_result_score]

/-- Witness for the amended C2 on the repository's plateau simulation:
scores `[0.70, 0.82, 0.82, 0.82]` plateau at iteration 4 and the
designated best iteration is 2, the earliest of the tied `0.82`
attempts. -/
theorem best_attempt_designation_witness :
    (refine 5 (mkRat 9 10) plateau_execute_iteration).map
        (fun p => p.2.bestIteration)
      = some (some 2) := by
  have hv : refine 5 (mkRat 9 10) plateau_execute_iteration
      = some (Decision.PlateauDetected,
          build_final_result ((List.range' 1 4).map plateau_execute_iteration) 4
            (plateau_execute_iteration 4)) := by rfl
  obtain ⟨b, hb, hbi, _⟩ := best_attempt_designation 5 (mkRat 9 10)
    plateau_execute_iteration (fun i => rfl) _ _ hv
  have hcomp : maxByScore (build_final_result
      ((List.range' 1 4).map plateau_execute_iteration) 4
      (plateau_execute_iteration 4)).history
        = some (plateau_execute_iteration 2) := by rfl
  rw [hcomp] at hb
  have hbval : b = plateau_execute_iteration 2 := (Option.some.inj hb).symm
  have h2 : (build_final_result ((List.range' 1 4).map plateau_execute_iteration) 4
      (plateau_execute_iteration 4)).bestIteration = some 2 := by
    rw [hbi, hbval]
    rfl
  rw [hv, Option.map_some', h2]

/-- The constant-score execution used to refute claim C3. -/
def flat_execution (i : Nat) : Attempt :=
  { iteration := i
    score := mkRat 8 10
    feedback := ("")
    solution := ("") }

/-- Counterexample to claim C3 as stated: scores `[0.8, 0.8, 0.8]` with
threshold `0.9` and `max_iterations = 3` reach the budget-exhaustion
condition (history length 3 at or above the budget, latest score below the
threshold) on the final iteration while the plateau condition also holds,
and the code reports `PlateauDetected`, not `BudgetExhausted`: the plateau
test runs before budget exhaustion, not after it. -/
theorem plateau_reported_on_final_iteration :
    (refine 3 (mkRat 9 10) flat_execution).map
        (fun p => (p.1, p.2.history.length,
          p.2.history.getLast?.map (fun a => decide (a.score < mkRat 9 10))))
      = some (Decision.PlateauDetected, 3, some true) := by rfl

/-- Claim C3 (amended): budget exhaustion is the residual decision,
reached whenever the loop finishes all `max_iterations` iterations with
the final attempt below the threshold and no plateau on the final
history; a simultaneous plateau on the final iteration is reported as
`PlateauDetected` instead, since the code checks the plateau inside the
loop and budget exhaustion only after it. -/
theorem budget_exhaustion_residual (n : Nat) (t : ℚ) (e : Nat → Attempt)
    (d : Decision) (fr : FinalResult)
    (hrun : refine n t e = some (d, fr))
    (hbelow : ∀ a, fr.history.getLast? = some a → a.score < t)
    (hnoplat : is_plateau fr.history = false) :
    d = Decision.BudgetExhausted ∧ fr.history.length = n := by
  rcases refine_cases n t e d fr hrun with
    ⟨fh, r, i, hr, hfr⟩ | ⟨fh, best, hr, hb, hd, hfr⟩
  · obtain ⟨hlast2, _, hsucc, hplat, hnb⟩ := runIters_some_spec t e _ _ _ _ _ _ hr
    have hfh : fr.history = fh := by rw [hfr, build_final_result_history]
    have hrb : r.score < t := hbelow r (by rw [hfh]; exact hlast2)
    cases d with
    | SuccessThresholdMet => exact absurd (hsucc.mp rfl) (not_le.mpr hrb)
    | PlateauDetected =>
      have hpl := (hplat rfl).1
      rw [hfh, hpl] at hnoplat
      cases hnoplat
    | BudgetExhausted => exact absurd rfl hnb
  · obtain ⟨l₁, l₂, hsplit, hfh1, himp⟩ := runIters_prefix t e (List.range' 1 n) []
    rw [hr] at hfh1 himp
    have hfh2 : fh = [] ++ List.map e l₁ := hfh1
    have hl2 : l₂ = [] := himp rfl
    subst hl2
    rw [List.append_nil] at hsplit
    have hfh : fr.history = fh := by rw [hfr, build_final_result_history]
    have hlen : fr.history.length = n := by
      rw [hfh, hfh2]
      simp [← hsplit]
    exact ⟨hd, hlen⟩

/-- Witness for the amended C3 at the claim's own concrete instance:
scores `[0.60, 0.75, 0.88]` with threshold `0.9` and `max_iterations = 3`
terminate at iteration 3 with `BudgetExhausted`, best attempt iteration 3
with score `0.88`. -/
theorem budget_exhaustion_residual_witness :
    (refine 3 (mkRat 9 10) execute_iteration).map
        (fun p => (p.1, p.2.history.length, p.2.score, p.2.bestIteration))
      = some (Decision.BudgetExhausted, 3, mkRat 88 100, some 3) := by
  have hv : refine 3 (mkRat 9 10) execute_iteration
      = some (Decision.BudgetExhausted,
          build_final_result ((List.range' 1 3).map execute_iteration) 3
            (execute_iteration 3)) := by rfl
  have _h := budget_exhaustion_residual 3 (mkRat 9 10) execute_iteration _ _ hv
    (by
      intro a ha
      have h3 : execute_iteration 3 = a := Option.some.inj ha
      rw [← h3]
      decide)
    (by rfl)
  rw [hv]
  rfl

/-- Claim C5: for every valid configuration (`max_iterations ≥ 1`) the
loop terminates with a result; each loop iteration makes exactly one
producer/scorer call and appends exactly one attempt, so the history
length counts those calls: it never exceeds `max_iterations`, the history
is exactly the attempts of iterations `1..length`, and on budget
exhaustion the count is exactly `max_iterations`. -/
theorem loop_call_bound (n : Nat) (t : ℚ) (e : Nat → Attempt)
    (hpos : 1 ≤ n) :
    ∃ d fr, refine n t e = some (d, fr) ∧
      fr.history.length ≤ n ∧
      fr.history = (List.range' 1 fr.history.length).map e ∧
      (d = Decision.BudgetExhausted → fr.history.length = n) := by
  obtain ⟨fh, out, hr⟩ : ∃ fh out, runIters t e (List.range' 1 n) [] = (fh, out) :=
    ⟨_, _, rfl⟩
  obtain ⟨l₁, l₂, hsplit, hfh1, himp⟩ := runIters_prefix t e (List.range' 1 n) []
  rw [hr] at hfh1 himp
  have hfh2 : fh = List.map e l₁ := hfh1
  have hlen : n = l₁.length + l₂.length := by
    have hc := congrArg List.length hsplit
    simpa using hc
  have hl1 : l₁ = List.range' 1 l₁.length := by
    have h0 := List.range'_append 1 l₁.length l₂.length 1
    rw [Nat.add_comm l₂.length l₁.length] at h0
    have h1 : List.range' 1 l₁.length ++ List.range' (1 + l₁.length) l₂.length
        = List.range' 1 (l₁.length + l₂.length) := by simpa using h0
    rw [← hlen, hsplit] at h1
    exact List.append_inj_left h1.symm (by simp)
  have hfh3 : fh = (List.range' 1 fh.length).map e := by
    rw [hfh2]
    rw [List.length_map, ← hl1]
  have hbound : fh.length ≤ n := by
    rw [hfh2, List.length_map, hlen]
    exact Nat.le_add_right _ _
  cases out with
  | some p =>
    rcases p with ⟨d, r, i⟩
    have hrefine := refine_eq_of_some n t e fh d r i hr
    obtain ⟨_, _, _, _, hnb⟩ := runIters_some_spec t e _ _ _ _ _ _ hr
    refine ⟨d, build_final_result fh i r, hrefine, ?_, ?_, fun hdB => absurd hdB hnb⟩
    · rw [build_final_result_history]
      exact hbound
    · rw [build_final_result_history]
      exact hfh3
  | none =>
    have hl2 : l₂ = [] := himp rfl
    subst hl2
    rw [List.append_nil] at hsplit
    have hlenn : fh.length = n := by
      rw [hfh2, List.length_map, hlen]
      simp
    have hne : fh ≠ [] := by
      intro hnil
      rw [hnil] at hlenn
      simp at hlenn
      omega
    obtain ⟨best, hbest⟩ := maxByScore_ne_none fh hne
    have hrefine : refine n t e
        = some (Decision.BudgetExhausted, build_final_result fh n best) := by
      rw [refine_eq_of_none n t e fh hr, hbest]
      rfl
    refine ⟨Decision.BudgetExhausted, build_final_result fh n best, hrefine, ?_, ?_,
      fun _ => ?_⟩
    · rw [build_final_result_history, hlenn]
    · rw [build_final_result_history]
      exact hfh3
    · rw [build_final_result_history]
      exact hlenn

/-- Witness for C5 at `max_iterations = 3` with the repository's
simulation: the run yields a result whose history has at most 3
attempts. -/
theorem loop_call_bound_witness :
    (refine 3 (mkRat 9 10) execute_iteration).isSome = true ∧
      (refine 3 (mkRat 9 10) execute_iteration).map (fun p => p.2.history.length)
        = some 3 := by
  obtain ⟨d, fr, h1, _, _, _⟩ := loop_call_bound 3 (mkRat 9 10) execute_iteration
    (by decide)
  constructor
  · rw [h1]
    rfl
  · rfl

/-! ## Lemmas about the spec's plateau policy -/

/-- The spec's plateau test, in terms of the window's Python `max` and
`min`: once the history is long enough, it fires exactly when the window
range is within epsilon. -/
lemma plateauSpec_iff (window : Nat) (epsilon : ℚ) (scores : List ℚ)
    (mx mn : ℚ) (hwin : window ≤ scores.length)
    (hmx : listMax (lastWindow window scores) = some mx)
    (hmn : listMin (lastWindow window scores) = some mn) :
    plateauSpec window epsilon scores = true ↔ mx - mn ≤ epsilon := by
  unfold plateauSpec
  rw [if_neg (not_lt.mpr hwin), hmx, hmn]
  simp

/-- With success and budget exhaustion both ruled out, the spec's policy
reduces to the plateau test. -/
lemma specPolicy_eq (cfg : RefineConfig) (history : List Attempt)
    (latest : Attempt) (hl : history.getLast? = some latest)
    (hs : latest.score < cfg.success_threshold)
    (hb : history.length < cfg.max_iterations) :
    specPolicy cfg history
      = (if plateauSpec cfg.plateau_window cfg.plateau_epsilon
            (history.map (fun h => h.score)) = true
         then PolicyDecision.PlateauDetected else PolicyDecision.Continue) := by
  unfold specPolicy
  rw [hl]
  show (if cfg.success_threshold ≤ latest.score then PolicyDecision.SuccessThresholdMet
    else if cfg.max_iterations ≤ history.length then PolicyDecision.BudgetExhausted
    else if plateauSpec cfg.plateau_window cfg.plateau_epsilon
        (List.map (fun h => h.score) history) = true then PolicyDecision.PlateauDetected
    else PolicyDecision.Continue) = _
  rw [if_neg (not_le.mpr hs), if_neg (not_le.mpr hb)]

/-- The code's `_is_plateau` is exactly the spec's parametrized plateau
test at window 3 and epsilon 0. -/
lemma is_plateau_eq_spec (history : List Attempt) :
    is_plateau history = plateauSpec 3 0 (history.map (fun h => h.score)) := by
  unfold is_plateau plateauSpec lastWindow
  rw [List.length_map]
  by_cases hlen : history.length < 3
  · rw [if_pos hlen, if_pos hlen]
  · rw [if_neg hlen, if_neg hlen, ← List.map_drop]
    have hL3 : ((history.drop (history.length - 3)).map
        (fun h => h.score)).length = 3 := by
      rw [List.length_map, List.length_drop]
      omega
    cases hd : (history.drop (history.length - 3)).map (fun h => h.score) with
    | nil =>
      rw [hd] at hL3
      simp at hL3
    | cons s rest =>
      simp only [listMax, listMin]
      have hiff : (rest.all (fun b => b == s) = true) ↔
          (List.foldl max s rest - List.foldl min s rest ≤ 0) := by
        rw [List.all_eq_true]
        constructor
        · intro hall
          refine (range_le_zero_iff (s :: rest) _ _ rfl rfl).mpr ?_
          intro a ha b hb
          have hx : ∀ x ∈ s :: rest, x = s := by
            intro x hx
            rcases List.mem_cons.mp hx with rfl | hx
            · rfl
            · exact beq_iff_eq.mp (hall x hx)
          rw [hx a ha, hx b hb]
        · intro hle x hx
          have hall := (range_le_zero_iff (s :: rest) _ _ rfl rfl).mp hle
          exact beq_iff_eq.mpr (hall x (List.mem_cons_of_mem s hx) s
            (List.mem_cons_self s rest))
      cases hab : rest.all (fun b => b == s) with
      | true => exact (decide_eq_true (hiff.mp hab)).symm
      | false =>
        refine (decide_eq_false ?_).symm
        intro hle
        exact absurd (hab ▸ hiff.mpr hle) (by decide)

/-- The configuration matching the repository's simulations: threshold
`0.9`, budget 5, the code's fixed window 3 and exact-equality epsilon. -/
def simConfig : RefineConfig :=
  { success_threshold := mkRat 9 10
    max_iterations := 5
    plateau_window := 3
    plateau_epsilon := 0 }

/-- Claim C4: once the history is at least `plateau_window` long, with the
latest score below the threshold and the budget not exhausted, the spec's
policy decides `PlateauDetected` exactly when the range of the last
`plateau_window` scores is within `plateau_epsilon`; at
`plateau_epsilon = 0` that means all recent scores are equal, which is the
code's `_is_plateau` with its fixed window of 3; on the
`PlateauSimulator` scores `[0.70, 0.82, 0.82, 0.82]` the code run
plateaus at iteration 4 and the policy says `Continue` on every earlier
prefix. -/
theorem plateau_detection_spec :
    (∀ (cfg : RefineConfig) (history : List Attempt) (latest : Attempt) (mx mn : ℚ),
      history.getLast? = some latest →
      latest.score < cfg.success_threshold →
      history.length < cfg.max_iterations →
      cfg.plateau_window ≤ history.length →
      listMax (lastWindow cfg.plateau_window (history.map (fun h => h.score)))
          = some mx →
      listMin (lastWindow cfg.plateau_window (history.map (fun h => h.score)))
          = some mn →
      ((specPolicy cfg history = PolicyDecision.PlateauDetected ↔
          mx - mn ≤ cfg.plateau_epsilon) ∧
        (cfg.plateau_epsilon = 0 →
          (specPolicy cfg history = PolicyDecision.PlateauDetected ↔
            ∀ a ∈ lastWindow cfg.plateau_window (history.map (fun h => h.score)),
              ∀ b ∈ lastWindow cfg.plateau_window (history.map (fun h => h.score)),
                a = b)))) ∧
    (∀ history : List Attempt,
      is_plateau history = plateauSpec 3 0 (history.map (fun h => h.score))) ∧
    ((refine 5 (mkRat 9 10) plateau_execute_iteration).map
        (fun p => (p.1, p.2.iteration, p.2.history.length))
      = some (Decision.PlateauDetected, 4, 4)) ∧
    (∀ k, 1 ≤ k → k ≤ 3 →
      specPolicy simConfig ((List.range' 1 k).map plateau_execute_iteration)
        = PolicyDecision.Continue) ∧
    (specPolicy simConfig ((List.range' 1 4).map plateau_execute_iteration)
      = PolicyDecision.PlateauDetected) := by
  have hmain : ∀ (cfg : RefineConfig) (history : List Attempt) (latest : Attempt)
      (mx mn : ℚ),
      history.getLast? = some latest →
      latest.score < cfg.success_threshold →
      history.length < cfg.max_iterations →
      cfg.plateau_window ≤ history.length →
      listMax (lastWindow cfg.plateau_window (history.map (fun h => h.score)))
          = some mx →
      listMin (lastWindow cfg.plateau_window (history.map (fun h => h.score)))
          = some mn →
      (specPolicy cfg history = PolicyDecision.PlateauDetected ↔
        mx - mn ≤ cfg.plateau_epsilon) := by
    intro cfg history latest mx mn hl hs hb hwin hmx hmn
    have hwin2 : cfg.plateau_window ≤ (history.map (fun h => h.score)).length := by
      rw [List.length_map]
      exact hwin
    have hps := plateauSpec_iff cfg.plateau_window cfg.plateau_epsilon
      (history.map (fun h => h.score)) mx mn hwin2 hmx hmn
    rw [specPolicy_eq cfg history latest hl hs hb]
    by_cases hp : plateauSpec cfg.plateau_window cfg.plateau_epsilon
        (history.map (fun h => h.score)) = true
    · rw [if_pos hp]
      exact iff_of_true rfl (hps.mp hp)
    · rw [if_neg hp]
      exact iff_of_false (by decide) (fun hle => hp (hps.mpr hle))
  refine ⟨?_, is_plateau_eq_spec, by rfl, ?_, ?_⟩
  · intro cfg history latest mx mn hl hs hb hwin hmx hmn
    refine ⟨hmain cfg history latest mx mn hl hs hb hwin hmx hmn, ?_⟩
    intro heps
    refine (hmain cfg history latest mx mn hl hs hb hwin hmx hmn).trans ?_
    rw [heps]
    exact range_le_zero_iff _ mx mn hmx hmn
  · intro k h1 h3
    interval_cases k
    · rfl
    · rfl
    · rw [specPolicy_eq simConfig ((List.range' 1 3).map plateau_execute_iteration)
        (plateau_execute_iteration 3) rfl (by decide) (by decide)]
      refine if_neg ?_
      intro hp
      have hx := (plateauSpec_iff simConfig.plateau_window simConfig.plateau_epsilon
        (((List.range' 1 3).map plateau_execute_iteration).map
          (fun h : Attempt => h.score))
        (mkRat 82 100) (mkRat 70 100) (by decide) (by decide) (by decide)).mp hp
      have h0 : mkRat 82 100 - mkRat 70 100 ≤ 0 := hx
      exact absurd (sub_nonpos.mp h0) (by decide)
  · rw [specPolicy_eq simConfig ((List.range' 1 4).map plateau_execute_iteration)
      (plateau_execute_iteration 4) rfl (by decide) (by decide)]
    refine if_pos ?_
    refine (plateauSpec_iff simConfig.plateau_window simConfig.plateau_epsilon
      (((List.range' 1 4).map plateau_execute_iteration).map
        (fun h : Attempt => h.score))
      (mkRat 82 100) (mkRat 82 100) (by decide) (by decide) (by decide)).mpr ?_
    show mkRat 82 100 - mkRat 82 100 ≤ (0 : ℚ)
    simp

/-- Witness for C4: the spec policy signals a plateau on the four
`PlateauSimulator` attempts, obtained from the main equivalence at the
concrete window maximum and minimum `0.82`. -/
theorem plateau_detection_spec_witness :
    specPolicy simConfig ((List.range' 1 4).map plateau_execute_iteration)
      = PolicyDecision.PlateauDetected := by
  have h := plateau_detection_spec.1 simConfig
    ((List.range' 1 4).map plateau_execute_iteration)
    (plateau_execute_iteration 4) (mkRat 82 100) (mkRat 82 100)
    rfl (by decide) (by decide) (by decide) rfl rfl
  exact h.1.mpr (by simp [simConfig])

/-- Claim C6: `ScoreHistory.append` succeeds, appending at the end,
exactly when the attempt's iteration is the previous length plus one;
any skipped or repeated iteration number fails with `InvariantViolation`
and leaves the history unchanged. -/
theorem append_invariant (history : List Attempt) (attempt : Attempt) :
    (attempt.iteration = history.length + 1 →
      appendAttempt history attempt = (history ++ [attempt], none)) ∧
    (attempt.iteration ≠ history.length + 1 →
      appendAttempt history attempt
        = (history, some RefinerError.InvariantViolation)) ∧
    ((appendAttempt history attempt).2 = none ↔
      attempt.iteration = history.length + 1) := by
  unfold appendAttempt
  by_cases hc : attempt.iteration = history.length + 1
  · rw [if_pos hc]
    exact ⟨fun _ => rfl, fun hn => absurd hc hn, by simp [hc]⟩
  · rw [if_neg hc]
    exact ⟨fun hy => absurd hy hc, fun _ => rfl, by simp [hc]⟩

/-- Witness for C6: appending iteration 1 to an empty history succeeds;
appending iteration 2 to an empty history (a skipped value) fails with
`InvariantViolation` and the history stays empty. -/
theorem append_invariant_witness :
    appendAttempt [] (execute_iteration 1) = ([execute_iteration 1], none) ∧
      appendAttempt [] (execute_iteration 2)
        = ([], some RefinerError.InvariantViolation) := by
  constructor
  · exact (append_invariant [] (execute_iteration 1)).1 (by decide)
  · exact (append_invariant [] (execute_iteration 2)).2.1 (by decide)

/-- Claim C7: an invalid configuration (`plateau_window < 2` or
`max_iterations < 1`) makes the loop fail fast with
`ConfigurationError`: the outcome carries zero collaborator calls, so
neither producer nor scorer ever ran. -/
theorem config_error_fails_fast (cfg : RefineConfig)
    (e : Nat → Except String Attempt)
    (hbad : cfg.plateau_window < 2 ∨ cfg.max_iterations < 1) :
    specRun cfg e = (SpecOutcome.configError, 0) := by
  unfold specRun
  rw [if_pos hbad]

/-- Witness for C7 at `plateau_window = 1`. -/
theorem config_error_fails_fast_witness :
    specRun { success_threshold := mkRat 9 10
              max_iterations := 5
              plateau_window := 1
              plateau_epsilon := 0 }
        (fun i => Except.ok (execute_iteration i))
      = (SpecOutcome.configError, 0) :=
  config_error_fails_fast _ _ (Or.inl (by decide))

/-- Running the spec's loop body from a consistent state: a collaborator
failure is propagated at once, tagged with the iteration at which it
occurred, carrying the history accumulated before the failure (one
attempt per completed iteration) and one call per started iteration. -/
lemma specGo_failure_spec (cfg : RefineConfig)
    (e : Nat → Except String Attempt) :
    ∀ (m s : Nat) (history : List Attempt) (calls : Nat),
      s = history.length + 1 → calls = history.length →
      ∀ (k : Nat) (h : List Attempt) (calls2 : Nat),
        specGo cfg e (List.range' s m) history calls
          = (SpecOutcome.collabFailure k h, calls2) →
        h.length = k - 1 ∧ calls2 = k ∧ 1 ≤ k ∧ ∃ msg, e k = Except.error msg
  | 0, s, history, calls => by
      intro hs hc k h calls2 hrun
      simp [List.range', specGo] at hrun
  | m + 1, s, history, calls => by
      intro hs hc k h calls2 hrun
      rw [List.range'_succ] at hrun
      simp only [specGo] at hrun
      split at hrun
      · rename_i msg hmsg
        injection hrun with h1 h2
        injection h1 with h1a h1b
        subst h1a
        subst h1b
        subst h2
        refine ⟨by omega, by omega, by omega, msg, hmsg⟩
      · rename_i attempt hattempt
        split at hrun
        · exact specGo_failure_spec cfg e m (s + 1) (history ++ [attempt])
            (calls + 1) (by simp; omega) (by simp; omega) k h calls2 hrun
        · injection hrun with h1 _
          injection h1

/-- Claim C8: when a collaborator (producer or scorer) fails on iteration
`k`, the loop does not retry: it propagates the failure immediately,
tagged with `k`, after exactly `k` collaborator invocations, and the
preserved history holds exactly the `k - 1` attempts accumulated before
the failure. -/
theorem collaborator_failure_propagates (cfg : RefineConfig)
    (e : Nat → Except String Attempt) (k : Nat) (h : List Attempt)
    (calls : Nat)
    (hrun : specRun cfg e = (SpecOutcome.collabFailure k h, calls)) :
    h.length = k - 1 ∧ calls = k ∧ 1 ≤ k ∧ ∃ msg, e k = Except.error msg := by
  unfold specRun at hrun
  by_cases hbad : cfg.plateau_window < 2 ∨ cfg.max_iterations < 1
  · rw [if_pos hbad] at hrun
    injection hrun with h1 _
    injection h1
  · rw [if_neg hbad] at hrun
    exact specGo_failure_spec cfg e cfg.max_iterations 1 [] 0 rfl rfl k h calls hrun

/-- The collaborator used to witness C8: the producer fails on
iteration 2. -/
def failing_execution (i : Nat) : Except String Attempt :=
  if i = 2 then Except.error ("simulated producer failure")
  else Except.ok (execute_iteration i)

/-- Witness for C8: a producer failure on iteration 2 leaves exactly one
attempt in the preserved history, and the surfaced error is tagged with
iteration 2. -/
theorem collaborator_failure_propagates_witness :
    specRun simConfig failing_execution
        = (SpecOutcome.collabFailure 2 [execute_iteration 1], 2) ∧
      [execute_iteration 1].length = 2 - 1 := by
  have hv : specRun simConfig failing_execution
      = (SpecOutcome.collabFailure 2 [execute_iteration 1], 2) := by rfl
  exact ⟨hv, (collaborator_failure_propagates simConfig failing_execution
    2 [execute_iteration 1] 2 hv).1⟩

/-- Claim C9: `route_based_on_complexity` is total on assessments carrying
a confidence and a recommendation: confidence below `0.5` always routes to
clarification, and otherwise the result is the strategy found in the
`strategies` dict, with the literal default `"unknown"` when the
recommendation is not one of the five known keys — never a lookup
error. -/
theorem route_complexity_total (a : Assessment) :
    (a.confidence < mkRat 5 10 →
      route_based_on_complexity a = ("clarify-with-user")) ∧
    (mkRat 5 10 ≤ a.confidence → ∀ s,
      strategies.lookup a.recommendation = some s →
      route_based_on_complexity a = s) ∧
    (mkRat 5 10 ≤ a.confidence →
      strategies.lookup a.recommendation = none →
      route_based_on_complexity a = ("unknown")) ∧
    (route_based_on_complexity a = ("clarify-with-user") ∨
      route_based_on_complexity a = ("unknown") ∨
      ∃ s, strategies.lookup a.recommendation = some s ∧
        route_based_on_complexity a = s) := by
  unfold route_based_on_complexity
  by_cases hc : a.confidence < mkRat 5 10
  · rw [if_pos hc]
    exact ⟨fun _ => rfl, fun hle => absurd hc (not_lt.mpr hle),
      fun hle => absurd hc (not_lt.mpr hle), Or.inl rfl⟩
  · rw [if_neg hc]
    refine ⟨fun hlt => absurd hlt hc, ?_, ?_, ?_⟩
    · intro _ s hs
      rw [hs]
      rfl
    · intro _ hn
      rw [hn]
      rfl
    · cases hl : strategies.lookup a.recommendation with
      | none => exact Or.inr (Or.inl rfl)
      | some s => exact Or.inr (Or.inr ⟨s, rfl, rfl⟩)

/-- Witness for C9: a confident `iterative-refinement` recommendation
routes to the iterative refiner. -/
theorem route_complexity_total_witness :
    route_based_on_complexity
        { confidence := mkRat 85 100, recommendation := ("iterative-refinement") }
      = ("use_iterative_refiner") :=
  (route_complexity_total _).2.1 (by decide) _ (by decide)

/-- Claim C10: on status `max_iterations_reached`,
`handle_iteration_timeout` answers `accept_good_enough` exactly when
`self_score` (0 when absent) is at least `0.7` and `suggest_decomposition`
exactly otherwise; any status other than the three recognized ones yields
`proceed`. -/
theorem iteration_timeout_actions (r : TimeoutResponse) :
    (r.status = some ("max_iterations_reached") →
      ((handle_iteration_timeout r = some ("accept_good_enough") ↔
          mkRat 7 10 ≤ r.self_score.getD 0) ∧
        (handle_iteration_timeout r = some ("suggest_decomposition") ↔
          r.self_score.getD 0 < mkRat 7 10))) ∧
    (r.status ≠ some ("budget_exhausted") →
      r.status ≠ some ("max_iterations_reached") →
      r.status ≠ some ("plateau_detected") →
      handle_iteration_timeout r = some ("proceed")) := by
  unfold handle_iteration_timeout
  constructor
  · intro hst
    rw [hst]
    rw [if_neg (by decide), if_pos rfl]
    by_cases hsc : mkRat 7 10 ≤ r.self_score.getD 0
    · rw [if_pos hsc]
      refine ⟨⟨fun _ => hsc, fun _ => rfl⟩, ⟨fun hx => ?_, ?_⟩⟩
      · exact absurd (Option.some.inj hx) (by decide)
      · intro hlt
        exact absurd hlt (not_lt.mpr hsc)
    · rw [if_neg hsc]
      refine ⟨⟨fun hx => ?_, fun hge => absurd hge hsc⟩,
        ⟨fun _ => not_le.mp hsc, fun _ => rfl⟩⟩
      exact absurd (Option.some.inj hx) (by decide)
  · intro h1 h2 h3
    rw [if_neg h1, if_neg h2, if_neg h3]

/-- Witness for C10: status `max_iterations_reached` with `self_score`
`0.78` is accepted as good enough. -/
theorem iteration_timeout_actions_witness :
    handle_iteration_timeout
        { status := some ("max_iterations_reached"), iteration := none,
          self_score := some (mkRat 78 100) }
      = some ("accept_good_enough") :=
  ((iteration_timeout_actions _).1 rfl).1.mpr (by decide)
